import Mathlib

/-!
Verification of the NMEA sentence decoders (APA, RPM, RSA, ZTG) of the
Tapped/nmea repository.  The four sentence modules are embedded from the
Rust source; inputs are lists of characters, nom parsers become functions
`List Char → Except PErr (List Char × α)` where `PErr` mirrors nom's
`Err::Error` / `Err::Failure` / `Err::Incomplete` distinction (only
`Err::Error` is recoverable by `opt`).  `f32` parse results are modelled
by `FVal`: every decimal literal denotes an exact rational, and the
`inf`/`infinity`/`nan` keywords accepted by nom 7.1's float parser and by
Rust's `f32::from_str` denote the non-finite values.  NaN payloads and
NaN's non-reflexive floating-point equality are not modelled: `FVal`
equality is structural, which no statement below relies on.
-/

/-- Decidable equality of parser results, for evaluating the decoders on
concrete inputs. -/
instance {ε α : Type} [DecidableEq ε] [DecidableEq α] : DecidableEq (Except ε α) := fun a b =>
  match a, b with
  | .ok x, .ok y => decidable_of_iff (x = y) (by simp)
  | .error x, .error y => decidable_of_iff (x = y) (by simp)
  | .ok _, .error _ => isFalse (by simp)
  | .error _, .ok _ => isFalse (by simp)

namespace Nmea

/-- nom error classes: `error` is recoverable (caught by `opt`/`alt`),
`failure` (from `cut`) and `incomplete` (from streaming parsers) are not. -/
inductive PErr
  | error
  | failure
  | incomplete
deriving DecidableEq, Repr

/-- Result of a nom parser: on success, the unconsumed remainder plus the
decoded value. -/
abbrev PResult (α : Type) : Type := Except PErr (List Char × α)

/-- Modelled from the spec: the message-type tag is "drawn from a closed
enumeration of known sentence types"; the enumeration itself lives outside
`src/`.  The four decoded types plus two other tags suffice for the claims. -/
inductive SentenceType
  | APA
  | RPM
  | RSA
  | ZTG
  | ABK
  | GGA
deriving DecidableEq, Repr

/-- Modelled from the spec: the crate-level decode error (defined outside
`src/`).  `WrongSentenceHeader` and `ParameterLength` are constructed
literally in the `src/` modules; every nom parser error is collapsed into
`ParsingError` (the spec's "malformed field" kind). -/
inductive Error
  | WrongSentenceHeader (expected : SentenceType) (found : SentenceType)
  | ParameterLength (max_length : Nat) (parameter_length : Nat)
  | ParsingError
deriving DecidableEq, Repr

/-- Modelled from the spec: the framed sentence handed over by the framer —
talker id, message-type tag, data body, verified checksum. -/
structure NmeaSentence where
  talker_id : List Char
  message_id : SentenceType
  data : List Char
  checksum : Nat
deriving DecidableEq, Repr

/-- Monad-bind unfolding on `Except`, for stepping the decoders. -/
@[simp]
theorem ok_bind {ε α β : Type} (a : α) (f : α → Except ε β) :
    (Except.ok a >>= f) = f a := rfl

/-- Monad-bind unfolding on `Except`: an error short-circuits. -/
@[simp]
theorem error_bind {ε α β : Type} (e : ε) (f : α → Except ε β) :
    ((Except.error e : Except ε α) >>= f) = .error e := rfl

/-- `pure` on `Except` is `Except.ok`. -/
@[simp]
theorem pure_eq_ok {ε α : Type} (a : α) : (pure a : Except ε α) = .ok a := rfl

/-- Lift a nom parser result into the crate error type (the `?` conversion
`From<nom::Err> for Error`). -/
def tr {α : Type} (x : PResult α) : Except Error (List Char × α) :=
  match x with
  | .ok a => .ok a
  | .error _ => .error .ParsingError

/-- Model of nom `character::complete::one_of`: consumes one character that
belongs to the given set, recoverable error otherwise (also on empty input). -/
def one_of (l : List Char) : List Char → PResult Char
  | [] => .error .error
  | c :: r => if c ∈ l then .ok (r, c) else .error .error

/-- Model of nom `character::streaming::one_of`: as `one_of`, but empty
input yields `Incomplete`. -/
def one_of_streaming (l : List Char) : List Char → PResult Char
  | [] => .error .incomplete
  | c :: r => if c ∈ l then .ok (r, c) else .error .error

/-- Model of nom `character::complete::char`: consumes exactly the given
character. -/
def char (c : Char) : List Char → PResult Char
  | [] => .error .error
  | d :: r => if d = c then .ok (r, c) else .error .error

/-- Model of nom `combinator::opt`: recoverable failure becomes `none`
without consuming input; `Failure`/`Incomplete` propagate. -/
def opt {α : Type} (p : List Char → PResult α) (i : List Char) : PResult (Option α) :=
  match p i with
  | .ok (r, v) => .ok (r, some v)
  | .error .error => .ok (i, none)
  | .error e => .error e

/-- Longest prefix of the input containing no character of `l`, plus the
remainder. -/
def spanNotIn (l : List Char) : List Char → List Char × List Char
  | [] => ([], [])
  | c :: r =>
    if c ∈ l then ([], c :: r)
    else
      let (a, b) := spanNotIn l r
      (c :: a, b)

/-- Model of nom `bytes::complete::is_not`: longest non-empty prefix made of
characters outside the set; recoverable error if that prefix is empty. -/
def is_not (l : List Char) (i : List Char) : PResult (List Char) :=
  match spanNotIn l i with
  | ([], _) => .error .error
  | (tk, r) => .ok (r, tk)

/-- Model of nom `bytes::complete::take_until(",")`: everything before the
first comma (the comma itself is not consumed); recoverable error when the
input contains no comma. -/
def take_until_comma (i : List Char) : PResult (List Char) :=
  match spanNotIn [','] i with
  | (tk, ',' :: r) => .ok (',' :: r, tk)
  | (_, _) => .error .error

/-- Model of nom `combinator::map_res`: a conversion failure on the parsed
value is a recoverable error. -/
def map_res {α β : Type} (p : List Char → PResult α) (f : α → Option β)
    (i : List Char) : PResult β :=
  match p i with
  | .ok (r, v) =>
    match f v with
    | some b => .ok (r, b)
    | none => .error .error
  | .error e => .error e

/-- Longest digit prefix of the input, plus the remainder. -/
def spanDigits : List Char → List Char × List Char
  | [] => ([], [])
  | c :: r =>
    if c.isDigit then
      let (a, b) := spanDigits r
      (c :: a, b)
    else ([], c :: r)

/-- Value of a digit string, most significant digit first. -/
def digitsToNat (l : List Char) : Nat :=
  l.foldl (fun a c => a * 10 + (c.toNat - 48)) 0

/-- `10 ^ k` as a rational. -/
def pow10 (n : Nat) : Rat := ((10 ^ n : Nat) : Rat)

/-- Scale a rational by `10 ^ e` for a signed exponent. -/
def scale10 (e : Int) (v : Rat) : Rat :=
  match e with
  | .ofNat n => v * pow10 n
  | .negSucc n => v / pow10 (n + 1)

/-- Model of the exponent part of nom's float grammar:
`opt(('e'|'E') ~ opt('+'|'-') ~ cut(digit1))`.  The `cut` makes a missing
exponent digit an unrecoverable `Failure`. -/
def parseExp (i : List Char) : Except PErr (List Char × Int) :=
  match i with
  | [] => .ok ([], 0)
  | c :: r =>
    if c = 'e' ∨ c = 'E' then
      let (neg, r1) : Bool × List Char :=
        match r with
        | [] => (false, [])
        | s :: r' =>
          if s = '-' then (true, r')
          else if s = '+' then (false, r')
          else (false, s :: r')
      match spanDigits r1 with
      | ([], _) => .error .failure
      | (d, r2) =>
        .ok (r2, if neg then -(digitsToNat d : Int) else (digitsToNat d : Int))
    else .ok (c :: r, 0)

/-- Mantissa-and-exponent part of nom's `recognize_float` grammar, after the
optional sign: `digit1 ~ opt('.' ~ opt(digit1))  |  '.' ~ digit1`, followed
by the optional exponent. -/
def recFloatCore (i : List Char) : PResult Rat :=
  match spanDigits i with
  | ([], _) =>
    match i with
    | '.' :: r =>
      match spanDigits r with
      | ([], _) => .error .error
      | (fp, r2) =>
        match parseExp r2 with
        | .error k => .error k
        | .ok (r3, e) =>
          .ok (r3, scale10 e ((digitsToNat fp : Rat) / pow10 fp.length))
    | _ => .error .error
  | (ip, r) =>
    match r with
    | '.' :: r2 =>
      match spanDigits r2 with
      | (fp, r3) =>
        match parseExp r3 with
        | .error k => .error k
        | .ok (r4, e) =>
          .ok (r4,
            scale10 e ((digitsToNat ip : Rat) + (digitsToNat fp : Rat) / pow10 fp.length))
    | _ =>
      match parseExp r with
      | .error k => .error k
      | .ok (r2, e) => .ok (r2, scale10 e (digitsToNat ip : Rat))

/-- Model of an `f32` parse result: a finite value is the exact rational
denoted by its decimal literal; the `inf`/`infinity`/`nan` keywords denote
the non-finite values.  NaN payload/sign and NaN's non-reflexive
floating-point equality are out of scope: `FVal` equality is structural. -/
inductive FVal
  | finite (q : Rat)
  | posInf
  | negInf
  | nan
deriving DecidableEq, Repr

/-- Float negation on the model values. -/
def FVal.neg : FVal → FVal
  | .finite q => .finite (-q)
  | .posInf => .negInf
  | .negInf => .posInf
  | .nan => .nan

/-- Model of nom `recognize_float`, evaluated: optional sign, then the
decimal mantissa/exponent grammar, as an exact rational. -/
def recognize_float (i : List Char) : PResult Rat :=
  match i with
  | [] => .error .error
  | c :: r =>
    if c = '+' then recFloatCore r
    else if c = '-' then
      match recFloatCore r with
      | .ok (rest, v) => .ok (rest, -v)
      | .error k => .error k
    else recFloatCore (c :: r)

/-- Model of nom `bytes::complete::tag_no_case`: consumes the tag
ASCII-case-insensitively, or fails. -/
def tag_no_case : List Char → List Char → Option (List Char)
  | [], i => some i
  | _ :: _, [] => none
  | c :: ts, d :: is => if d.toLower = c.toLower then tag_no_case ts is else none

/-- Model of nom 7.1 `number::complete::float`
(`recognize_float_or_exceptions`): the signed decimal grammar, or — when it
fails recoverably — one of the case-insensitive exception keywords `nan`,
`infinity`, `inf` (unsigned), tried in that order; a `cut` failure in the
exponent aborts the whole alternation. -/
def nomFloat (i : List Char) : PResult FVal :=
  match recognize_float i with
  | .ok (r, v) => .ok (r, .finite v)
  | .error .error =>
    match tag_no_case ['n', 'a', 'n'] i with
    | some r => .ok (r, .nan)
    | none =>
      match tag_no_case ['i', 'n', 'f', 'i', 'n', 'i', 't', 'y'] i with
      | some r => .ok (r, .posInf)
      | none =>
        match tag_no_case ['i', 'n', 'f'] i with
        | some r => .ok (r, .posInf)
        | none => .error .error
  | .error k => .error k

/-- The unsigned part of Rust's `f32::from_str` grammar, as a parser: the
decimal mantissa/exponent grammar or one of the case-insensitive
`nan`/`infinity`/`inf` keywords. -/
def float_no_sign (u : List Char) : PResult FVal :=
  match recFloatCore u with
  | .ok (r, v) => .ok (r, .finite v)
  | .error .error =>
    match tag_no_case ['n', 'a', 'n'] u with
    | some r => .ok (r, .nan)
    | none =>
      match tag_no_case ['i', 'n', 'f', 'i', 'n', 'i', 't', 'y'] u with
      | some r => .ok (r, .posInf)
      | none =>
        match tag_no_case ['i', 'n', 'f'] u with
        | some r => .ok (r, .posInf)
        | none => .error .error
  | .error k => .error k

/-- Modelled from the spec: the shared maximum bounded-text length
(`TEXT_PARAMETER_MAX_LEN`, defined outside `src/`); its value 64 is pinned
by the in-source ZTG length test. -/
def TEXT_PARAMETER_MAX_LEN : Nat := 64

/-- Modelled from the spec: `array_string` (defined outside `src/`) copies a
token into a bounded text value, failing with the length-exceeded error
carrying the configured maximum and the observed length. -/
def array_string (n : Nat) (s : List Char) : Except Error (List Char) :=
  if n < s.length then .error (.ParameterLength n s.length)
  else .ok s

/-- Modelled from the spec: `parse_valid_status` (defined outside `src/`)
consumes exactly one of `A` (true) / `V` (false) and fails on anything
else, including an empty field. -/
def parse_valid_status : List Char → PResult Bool
  | [] => .error .error
  | c :: r =>
    if c = 'A' then .ok (r, true)
    else if c = 'V' then .ok (r, false)
    else .error .error

/-- Modelled from the spec: `parse_float_num` (defined outside `src/`) —
"the token must parse fully as the target numeric type (no partial/garbage
suffix) or the decode fails".  The target type is `f32`, whose `from_str`
accepts an optional sign followed by either the decimal grammar or the
case-insensitive `inf`/`infinity`/`nan` keywords, over the whole token. -/
def parse_float_num (t : List Char) : Option FVal :=
  match t with
  | [] => none
  | c :: r =>
    if c = '-' then
      match float_no_sign r with
      | .ok ([], v) => some (FVal.neg v)
      | _ => none
    else if c = '+' then
      match float_no_sign r with
      | .ok ([], v) => some v
      | _ => none
    else
      match float_no_sign (c :: r) with
      | .ok ([], v) => some v
      | _ => none

/-- Modelled from the spec: `parse_num::<i8>` (defined outside `src/`) — an
"optional bounded small integer": optional sign, digits, full token, value
within the signed 8-bit range. -/
def parse_num_i8 (t : List Char) : Option Int :=
  let core : List Char → Option Int := fun u =>
    match spanDigits u with
    | ([], _) => none
    | (d, []) => some (digitsToNat d : Int)
    | (_, _ :: _) => none
  match t with
  | '-' :: r => (core r).bind fun v => if -v < -128 then none else some (-v)
  | '+' :: r => (core r).bind fun v => if 127 < v then none else some v
  | _ => (core t).bind fun v => if 127 < v then none else some v

/-- A decoded time of day, standing in for `chrono::NaiveTime`. -/
structure Hms where
  hour : Nat
  minute : Nat
  second : Rat
deriving DecidableEq, Repr

/-- One decimal digit, as a parser. -/
def digit1 : List Char → PResult Nat
  | [] => .error .error
  | c :: r => if c.isDigit then .ok (r, c.toNat - 48) else .error .error

/-- Modelled from the spec: `parse_hms` (defined outside `src/`) decodes an
"optional time-of-day value, `hhmmss.ss`": two hour digits, two minute
digits, fractional seconds, within time-of-day bounds. -/
def parse_hms (i : List Char) : Except PErr (List Char × Hms) := do
  let (i, h1) ← digit1 i
  let (i, h2) ← digit1 i
  let (i, m1) ← digit1 i
  let (i, m2) ← digit1 i
  let (i, s) ← nomFloat i
  let h := h1 * 10 + h2
  let m := m1 * 10 + m2
  match s with
  | .finite q =>
    if h < 24 ∧ m < 60 ∧ 0 ≤ q ∧ q < 60 then pure (i, ⟨h, m, q⟩)
    else .error .error
  | _ => .error .error

/-- Modelled from the spec: `parse_duration_hms` (defined outside `src/`)
decodes `hhmmss.ss` "interpreted as hours/minutes/seconds/fractional-
seconds"; the result is the total duration in seconds. -/
def parse_duration_hms (i : List Char) : Except PErr (List Char × Rat) := do
  let (i, h1) ← digit1 i
  let (i, h2) ← digit1 i
  let (i, m1) ← digit1 i
  let (i, m2) ← digit1 i
  let (i, s) ← nomFloat i
  match s with
  | .finite q =>
    pure (i, ((h1 * 10 + h2) * 3600 + (m1 * 10 + m2) * 60 : Nat) + q)
  | _ => .error .error

/-- `src/sentences/apa.rs`: the decoded autopilot record. -/
structure ApaData where
  status_warning : Option Bool
  status_cycle_warning : Option Bool
  cross_track_error_magnitude : Option FVal
  direction_steer : Option Bool
  cross_track_units : Option Char
  status_arrived : Option Bool
  status_passed : Option Bool
  bearing_origin_destination : Option FVal
  magnetic_true : Option Char
  waypoint_id : Option (List Char)
deriving DecidableEq, Repr

/-- `src/sentences/apa.rs` `do_parse_apa`: the APA field pipeline.  Each
`one_of` match in the source maps the two admissible characters; the
`unreachable!` arms cannot fire, so boolean fields are the test against the
first admissible character. -/
def do_parse_apa (i : List Char) : Except Error ApaData := do
  let (i, c1) ← tr (one_of ['A', 'V'] i)
  let status_warning := some (c1 == 'A')
  let (i, _) ← tr (char ',' i)
  let (i, c2) ← tr (one_of ['A', 'V'] i)
  let status_cycle_warning := some (c2 == 'A')
  let (i, _) ← tr (char ',' i)
  let (i, cross_track_error_magnitude) ← tr (opt nomFloat i)
  let (i, _) ← tr (char ',' i)
  let (i, c3) ← tr (one_of ['L', 'R'] i)
  let direction_steer := some (c3 == 'L')
  let (i, _) ← tr (char ',' i)
  let (i, c4) ← tr (one_of ['N', 'K'] i)
  let cross_track_units := some c4
  let (i, _) ← tr (char ',' i)
  let (i, c5) ← tr (one_of ['A', 'V'] i)
  let status_arrived := some (c5 == 'A')
  let (i, _) ← tr (char ',' i)
  let (i, c6) ← tr (one_of ['A', 'V'] i)
  let status_passed := some (c6 == 'A')
  let (i, _) ← tr (char ',' i)
  let (i, bearing_origin_destination) ← tr (opt nomFloat i)
  let (i, _) ← tr (char ',' i)
  let (i, c7) ← tr (one_of ['M', 'T'] i)
  let magnetic_true := some c7
  let (i, _) ← tr (char ',' i)
  let (_, waypoint_id) ← tr (opt (is_not ['*']) i)
  let waypoint_id ←
    match waypoint_id with
    | none => pure none
    | some w => do
      let a ← array_string TEXT_PARAMETER_MAX_LEN w
      pure (some a)
  pure { status_warning, status_cycle_warning, cross_track_error_magnitude,
         direction_steer, cross_track_units, status_arrived, status_passed,
         bearing_origin_destination, magnetic_true, waypoint_id }

/-- `src/sentences/apa.rs` `parse_apa`: tag guard, then the field pipeline. -/
def parse_apa (sentence : NmeaSentence) : Except Error ApaData :=
  if sentence.message_id ≠ SentenceType.APA then
    .error (.WrongSentenceHeader .APA sentence.message_id)
  else do_parse_apa sentence.data

/-- `src/sentences/rpm.rs`: source of the revolution reading. -/
inductive RpmSource
  | Shaft
  | Engine
deriving DecidableEq, Repr

/-- `src/sentences/rpm.rs`: the decoded revolution-rate record. -/
structure RpmData where
  source : Option RpmSource
  engine_or_shaft_number : Option Int
  speed : Option FVal
  propeller_pitch : Option FVal
  valid : Bool
deriving DecidableEq, Repr

/-- `src/sentences/rpm.rs` `do_parse_rpm`: the RPM field pipeline; returns
the unconsumed remainder alongside the record, exactly as the nom `IResult`
does. -/
def do_parse_rpm (i : List Char) : Except PErr (List Char × RpmData) := do
  let (i, source_char) ← opt (one_of_streaming ['S', 'E']) i
  let (i, _) ← char ',' i
  let source := source_char.map fun c =>
    if c = 'S' then RpmSource.Shaft else RpmSource.Engine
  let (i, engine_or_shaft_number) ← opt (map_res take_until_comma parse_num_i8) i
  let (i, _) ← char ',' i
  let (i, speed) ← opt (map_res take_until_comma parse_float_num) i
  let (i, _) ← char ',' i
  let (i, propeller_pitch) ← opt (map_res take_until_comma parse_float_num) i
  let (i, _) ← char ',' i
  let (i, valid) ← parse_valid_status i
  pure (i, { source, engine_or_shaft_number, speed, propeller_pitch, valid })

/-- `src/sentences/rpm.rs` `parse_rpm`: tag guard, then the pipeline; the
leftover input of the `IResult` is dropped (`?.1`). -/
def parse_rpm (sentence : NmeaSentence) : Except Error RpmData :=
  if sentence.message_id ≠ SentenceType.RPM then
    .error (.WrongSentenceHeader .RPM sentence.message_id)
  else
    match do_parse_rpm sentence.data with
    | .ok (_, d) => .ok d
    | .error _ => .error .ParsingError

/-- `src/sentences/rsa.rs`: the decoded rudder-angle record. -/
structure RsaData where
  starboard_rudder_sensor : Option FVal
  starboard_rudder_valid : Bool
  port_rudder_sensor : Option FVal
  port_rudder_valid : Bool
deriving DecidableEq, Repr

/-- `src/sentences/rsa.rs` `do_parse_rsa`: the RSA field pipeline. -/
def do_parse_rsa (i : List Char) : Except PErr (List Char × RsaData) := do
  let (i, starboard_rudder_sensor) ← opt (map_res take_until_comma parse_float_num) i
  let (i, _) ← char ',' i
  let (i, starboard_rudder_valid) ← parse_valid_status i
  let (i, _) ← char ',' i
  let (i, port_rudder_sensor) ← opt (map_res take_until_comma parse_float_num) i
  let (i, _) ← char ',' i
  let (i, port_rudder_valid) ← parse_valid_status i
  pure (i, { starboard_rudder_sensor, starboard_rudder_valid,
             port_rudder_sensor, port_rudder_valid })

/-- `src/sentences/rsa.rs` `parse_rsa`: tag guard, then the pipeline; the
leftover input is dropped. -/
def parse_rsa (sentence : NmeaSentence) : Except Error RsaData :=
  if sentence.message_id ≠ SentenceType.RSA then
    .error (.WrongSentenceHeader .RSA sentence.message_id)
  else
    match do_parse_rsa sentence.data with
    | .ok (_, d) => .ok d
    | .error _ => .error .ParsingError

/-- `src/sentences/ztg.rs`: the decoded time-to-destination record;
`fix_duration` is the duration in seconds. -/
structure ZtgData where
  fix_time : Option Hms
  fix_duration : Option Rat
  waypoint_id : Option (List Char)
deriving DecidableEq, Repr

/-- `src/sentences/ztg.rs` `do_parse_ztg`: the ZTG field pipeline.  Note
that the terminal waypoint field is `is_not(",*")`: it stops at a comma as
well as at the checksum marker. -/
def do_parse_ztg (i : List Char) : Except Error ZtgData := do
  let (i, fix_time) ← tr (opt parse_hms i)
  let (i, _) ← tr (char ',' i)
  let (i, fix_duration) ← tr (opt parse_duration_hms i)
  let (i, _) ← tr (char ',' i)
  let (_, waypoint_id) ← tr (opt (is_not [',', '*']) i)
  let waypoint_id ←
    match waypoint_id with
    | none => pure none
    | some w => do
      let a ← array_string TEXT_PARAMETER_MAX_LEN w
      pure (some a)
  pure { fix_time, fix_duration, waypoint_id }

/-- `src/sentences/ztg.rs` `parse_ztg`: tag guard, then the pipeline. -/
def parse_ztg (sentence : NmeaSentence) : Except Error ZtgData :=
  if sentence.message_id ≠ SentenceType.ZTG then
    .error (.WrongSentenceHeader .ZTG sentence.message_id)
  else do_parse_ztg sentence.data

/-! ## Lemmas about the character-span primitives -/

/-- `spanNotIn` consumes exactly `w` when no character of `w` is in the set
and the remainder is empty or starts with a set character. -/
theorem spanNotIn_exact (l w rest : List Char) (hw : ∀ c ∈ w, c ∉ l)
    (hr : rest = [] ∨ ∃ c r', rest = c :: r' ∧ c ∈ l) :
    spanNotIn l (w ++ rest) = (w, rest) := by
  induction w with
  | nil =>
    rcases hr with h | ⟨c, r', rfl, hcl⟩
    · subst h; simp [spanNotIn]
    · simp [spanNotIn, hcl]
  | cons c w ih =>
    have hc : c ∉ l := hw c (by simp)
    simp [spanNotIn, hc, ih (fun d hd => hw d (List.mem_cons_of_mem _ hd))]

/-- `spanNotIn` consumes the whole input when no character of it is in the
set. -/
theorem spanNotIn_all (l w : List Char) (hw : ∀ c ∈ w, c ∉ l) :
    spanNotIn l w = (w, []) := by
  have h := spanNotIn_exact l w [] hw (Or.inl rfl)
  simpa using h

/-- `spanNotIn` on a comma-free token followed by a comma stops exactly at
the comma. -/
theorem spanNotIn_comma_token (t rest : List Char) (hc : ',' ∉ t) :
    spanNotIn [','] (t ++ ',' :: rest) = (t, ',' :: rest) := by
  refine spanNotIn_exact _ _ _ ?_ (Or.inr ⟨',', rest, rfl, by simp⟩)
  intro d hd
  simp
  rintro rfl
  exact hc hd

/-! ## Lemmas about the float recognizer

A comma terminates the float grammar exactly like the end of input does, so
appending `,rest` to a comma-free token does not change how the token is
recognized, and whatever the recognizer leaves unconsumed is a suffix of
its input. -/

/-- `spanDigits` is unchanged by appending a comma-led continuation. -/
theorem spanDigits_comma (t r : List Char) :
    spanDigits (t ++ ',' :: r) = ((spanDigits t).1, (spanDigits t).2 ++ ',' :: r) := by
  induction t with
  | nil => simp [spanDigits]
  | cons c t ih =>
    by_cases hc : c.isDigit
    · simp [spanDigits, hc, ih]
    · simp [spanDigits, hc]

/-- `spanDigits` splits its input into consumed digits and remainder. -/
theorem spanDigits_split (t : List Char) :
    (spanDigits t).1 ++ (spanDigits t).2 = t := by
  induction t with
  | nil => simp [spanDigits]
  | cons c t ih =>
    by_cases hc : c.isDigit
    · simp [spanDigits, hc, ih]
    · simp [spanDigits, hc]

/-- The exponent parser is unchanged by appending a comma-led continuation. -/
theorem parseExp_comma (t r : List Char) :
    parseExp (t ++ ',' :: r) =
      match parseExp t with
      | .ok (q, e) => .ok (q ++ ',' :: r, e)
      | .error k => .error k := by
  match t with
  | [] => simp [parseExp]
  | c :: t' =>
    by_cases he : c = 'e' ∨ c = 'E'
    · match t' with
      | [] => simp [parseExp, he, spanDigits]
      | s :: t'' =>
        by_cases hs : s = '-'
        · cases e : spanDigits t'' with
          | mk d q =>
            simp [parseExp, he, hs, spanDigits_comma, e]
            cases d <;> simp
        · by_cases hs' : s = '+'
          · cases e : spanDigits t'' with
            | mk d q =>
              simp [parseExp, he, hs, hs', spanDigits_comma, e]
              cases d <;> simp
          · have hsc := spanDigits_comma (s :: t'') r
            rw [List.cons_append] at hsc
            cases e : spanDigits (s :: t'') with
            | mk d q =>
              simp only [e] at hsc
              simp [parseExp, he, hs, hs', hsc, e]
              cases d <;> simp
    · simp [parseExp, he]

/-- What the exponent parser leaves unconsumed is a suffix of its input. -/
theorem parseExp_split (t q : List Char) (e : Int) (h : parseExp t = .ok (q, e)) :
    ∃ p, t = p ++ q := by
  match t with
  | [] =>
    simp [parseExp] at h
    exact ⟨[], by simp [h.1]⟩
  | c :: t' =>
    by_cases he : c = 'e' ∨ c = 'E'
    · match t' with
      | [] =>
        simp [parseExp, he, spanDigits] at h
      | s :: t'' =>
        by_cases hs : s = '-'
        · cases esd : spanDigits t'' with
          | mk d q' =>
            simp [parseExp, he, hs, esd] at h
            cases d with
            | nil => simp at h
            | cons d0 ds =>
              simp at h
              refine ⟨c :: s :: d0 :: ds, ?_⟩
              have hsplit := spanDigits_split t''
              rw [esd] at hsplit
              simp [hs, ← h.1, ← hsplit]
        · by_cases hs' : s = '+'
          · cases esd : spanDigits t'' with
            | mk d q' =>
              simp [parseExp, he, hs, hs', esd] at h
              cases d with
              | nil => simp at h
              | cons d0 ds =>
                simp at h
                refine ⟨c :: s :: d0 :: ds, ?_⟩
                have hsplit := spanDigits_split t''
                rw [esd] at hsplit
                simp [hs', ← h.1, ← hsplit]
          · cases esd : spanDigits (s :: t'') with
            | mk d q' =>
              simp [parseExp, he, hs, hs', esd] at h
              cases d with
              | nil => simp at h
              | cons d0 ds =>
                simp at h
                refine ⟨c :: d0 :: ds, ?_⟩
                have hsplit := spanDigits_split (s :: t'')
                rw [esd] at hsplit
                simp [← h.1, ← hsplit]
    · simp [parseExp, he] at h
      exact ⟨[], by simp [h.1]⟩

/-- The mantissa recognizer is unchanged by appending a comma-led
continuation to a comma-free token. -/
theorem recFloatCore_comma (t r : List Char) (hc : ',' ∉ t) :
    recFloatCore (t ++ ',' :: r) =
      match recFloatCore t with
      | .ok (q, v) => .ok (q ++ ',' :: r, v)
      | .error k => .error k := by
  cases et : spanDigits t with
  | mk ip q =>
    have hts : ip ++ q = t := by rw [← spanDigits_split t, et]
    have hsc := spanDigits_comma t r
    rw [et] at hsc
    cases ip with
    | nil =>
      simp only [List.nil_append] at hts
      subst hts
      cases q with
      | nil => simp [recFloatCore, spanDigits]
      | cons c t2 =>
        by_cases hdot : c = '.'
        · subst hdot
          have hct2 : ',' ∉ t2 := fun hm => hc (List.mem_cons_of_mem _ hm)
          cases et2 : spanDigits t2 with
          | mk fp q2 =>
            have hsc2 := spanDigits_comma t2 r
            rw [et2] at hsc2
            cases fp with
            | nil => simp [recFloatCore, spanDigits, hsc2, et2, List.cons_append]
            | cons f fs =>
              have hq2 : ',' ∉ q2 := fun hm => hct2 (by
                rw [← spanDigits_split t2, et2]
                exact List.mem_append_right _ hm)
              have hpe := parseExp_comma q2 r
              cases epe : parseExp q2 with
              | ok a =>
                cases a with
                | mk r3 e =>
                  rw [epe] at hpe
                  simp [recFloatCore, spanDigits, hsc2, et2, hpe, epe,
                        List.cons_append]
              | error k =>
                rw [epe] at hpe
                simp [recFloatCore, spanDigits, hsc2, et2, hpe, epe,
                      List.cons_append]
        · have hnd : ¬ c.isDigit := by
            intro hd
            simp [spanDigits, hd] at et
          simp [recFloatCore, List.cons_append, spanDigits, hnd, hdot]
    | cons i0 ip' =>
      have hcq : ',' ∉ q := fun hm => hc (by
        rw [← hts]
        exact List.mem_append_right _ hm)
      cases q with
      | nil =>
        simp [recFloatCore, hsc, et, parseExp]
      | cons c q2 =>
        by_cases hdot : c = '.'
        · subst hdot
          have hcq2 : ',' ∉ q2 := fun hm => hcq (List.mem_cons_of_mem _ hm)
          cases eq2 : spanDigits q2 with
          | mk fp q3 =>
            have hsc2 := spanDigits_comma q2 r
            rw [eq2] at hsc2
            have hq3 : ',' ∉ q3 := fun hm => hcq2 (by
              rw [← spanDigits_split q2, eq2]
              exact List.mem_append_right _ hm)
            have hpe := parseExp_comma q3 r
            cases epe : parseExp q3 with
            | ok a =>
              cases a with
              | mk r4 e =>
                rw [epe] at hpe
                simp [recFloatCore, hsc, et, hsc2, eq2, hpe, epe, List.cons_append]
            | error k =>
              rw [epe] at hpe
              simp [recFloatCore, hsc, et, hsc2, eq2, hpe, epe, List.cons_append]
        · have hpe := parseExp_comma (c :: q2) r
          cases epe : parseExp (c :: q2) with
          | ok a =>
            cases a with
            | mk r3 e =>
              rw [epe] at hpe
              rw [List.cons_append] at hpe
              simp [recFloatCore, hsc, et, hpe, epe, hdot, List.cons_append]
          | error k =>
            rw [epe] at hpe
            rw [List.cons_append] at hpe
            simp [recFloatCore, hsc, et, hpe, epe, hdot, List.cons_append]

/-- What the mantissa recognizer leaves unconsumed is a suffix of its
input. -/
theorem recFloatCore_split (t q : List Char) (v : Rat)
    (h : recFloatCore t = .ok (q, v)) : ∃ p, t = p ++ q := by
  unfold recFloatCore at h
  split at h
  next snd heq =>
    split at h
    next r =>
      split at h
      next => simp at h
      next fp r2 hguard heq2 =>
        split at h
        next => simp at h
        next r3 e heq3 =>
          simp at h
          obtain ⟨hq, -⟩ := h
          obtain ⟨p2, hp2⟩ := parseExp_split r2 r3 e heq3
          have h2 : fp ++ r2 = r := by rw [← spanDigits_split r, heq2]
          exact ⟨'.' :: (fp ++ p2), by simp [← h2, hp2, ← hq]⟩
    next => simp at h
  next dg rm hguard heq =>
    have hts : dg ++ rm = t := by rw [← spanDigits_split t, heq]
    split at h
    next r2 =>
      cases e2 : spanDigits r2 with
      | mk fp r3 =>
        rw [e2] at h
        dsimp only at h
        cases epe : parseExp r3 with
        | error k => rw [epe] at h; simp at h
        | ok a =>
          cases a with
          | mk r4 e =>
            rw [epe] at h
            simp at h
            obtain ⟨hq, -⟩ := h
            obtain ⟨p2, hp2⟩ := parseExp_split r3 r4 e epe
            have h2 : fp ++ r3 = r2 := by rw [← spanDigits_split r2, e2]
            refine ⟨dg ++ '.' :: (fp ++ p2), ?_⟩
            rw [← hts]
            simp [← h2, hp2, ← hq]
    next =>
      cases epe : parseExp rm with
      | error k => rw [epe] at h; simp at h
      | ok a =>
        cases a with
        | mk r2 e =>
          rw [epe] at h
          simp at h
          obtain ⟨hq, -⟩ := h
          obtain ⟨p2, hp2⟩ := parseExp_split rm r2 e epe
          refine ⟨dg ++ p2, ?_⟩
          rw [← hts]
          simp [hp2, ← hq]

/-- The signed decimal recognizer is unchanged by appending a comma-led
continuation to a comma-free token. -/
theorem recognize_float_comma (t r : List Char) (hc : ',' ∉ t) :
    recognize_float (t ++ ',' :: r) =
      match recognize_float t with
      | .ok (q, v) => .ok (q ++ ',' :: r, v)
      | .error k => .error k := by
  cases t with
  | nil => simp [recognize_float, recFloatCore, spanDigits]
  | cons c t' =>
    have hct' : ',' ∉ t' := fun hm => hc (List.mem_cons_of_mem _ hm)
    by_cases hp : c = '+'
    · subst hp
      simp [recognize_float, recFloatCore_comma t' r hct']
    · by_cases hm : c = '-'
      · subst hm
        cases e : recFloatCore t' with
        | ok a =>
          cases a with
          | mk q v => simp [recognize_float, recFloatCore_comma t' r hct', e]
        | error k => simp [recognize_float, recFloatCore_comma t' r hct', e]
      · rw [List.cons_append]
        simp only [recognize_float, if_neg hp, if_neg hm]
        rw [← List.cons_append, recFloatCore_comma (c :: t') r hc]

/-- What the signed decimal recognizer leaves unconsumed is a suffix of
its input. -/
theorem recognize_float_split (t q : List Char) (v : Rat)
    (h : recognize_float t = .ok (q, v)) : ∃ p, t = p ++ q := by
  cases t with
  | nil => simp [recognize_float] at h
  | cons c t' =>
    by_cases hp : c = '+'
    · subst hp
      simp [recognize_float] at h
      obtain ⟨p, hp2⟩ := recFloatCore_split t' q v h
      exact ⟨'+' :: p, by simp [hp2]⟩
    · by_cases hm : c = '-'
      · subst hm
        simp [recognize_float] at h
        cases e : recFloatCore t' with
        | error k => rw [e] at h; simp at h
        | ok a =>
          cases a with
          | mk q2 v2 =>
            rw [e] at h
            simp at h
            obtain ⟨hq, -⟩ := h
            obtain ⟨p, hp2⟩ := recFloatCore_split t' q2 v2 e
            exact ⟨'-' :: p, by simp [hp2, hq]⟩
      · simp only [recognize_float, if_neg hp, if_neg hm] at h
        obtain ⟨p, hp2⟩ := recFloatCore_split (c :: t') q v h
        exact ⟨p, hp2⟩

/-- `tag_no_case` matching is unchanged by appending a comma-led
continuation, when the comma occurs neither in the token nor (lowered) in
the tag. -/
theorem tag_no_case_comma (tag t r : List Char)
    (htag : ∀ c ∈ tag, c.toLower ≠ ',') (hc : ',' ∉ t) :
    tag_no_case tag (t ++ ',' :: r) =
      match tag_no_case tag t with
      | some q => some (q ++ ',' :: r)
      | none => none := by
  revert htag hc
  induction tag generalizing t with
  | nil =>
    intro htag hc
    simp [tag_no_case]
  | cons c ts ih =>
    intro htag hc
    cases t with
    | nil =>
      have h1 : ¬ ((',') = c.toLower) := fun hx => htag c (by simp) hx.symm
      simp [tag_no_case, h1]
    | cons d t' =>
      by_cases hd : d.toLower = c.toLower
      · have hc' : ',' ∉ t' := fun hm => hc (List.mem_cons_of_mem _ hm)
        simp [tag_no_case, hd,
              ih t' (fun x hx => htag x (List.mem_cons_of_mem _ hx)) hc']
      · simp [tag_no_case, hd]

/-- What `tag_no_case` leaves unconsumed is a suffix of its input. -/
theorem tag_no_case_split (tag t q : List Char)
    (h : tag_no_case tag t = some q) : ∃ p, t = p ++ q := by
  revert h
  induction tag generalizing t with
  | nil =>
    intro h
    simp [tag_no_case] at h
    exact ⟨[], by simp [h]⟩
  | cons c ts ih =>
    intro h
    cases t with
    | nil => simp [tag_no_case] at h
    | cons d t' =>
      by_cases hd : d.toLower = c.toLower
      · simp [tag_no_case, hd] at h
        obtain ⟨p, hp⟩ := ih t' h
        exact ⟨d :: p, by simp [hp]⟩
      · simp [tag_no_case, hd] at h

/-- The float parser is unchanged by appending a comma-led continuation to
a comma-free token. -/
theorem nomFloat_comma (t r : List Char) (hc : ',' ∉ t) :
    nomFloat (t ++ ',' :: r) =
      match nomFloat t with
      | .ok (q, v) => .ok (q ++ ',' :: r, v)
      | .error k => .error k := by
  have hrf := recognize_float_comma t r hc
  have hnan := tag_no_case_comma ['n', 'a', 'n'] t r (by decide) hc
  have hinfy := tag_no_case_comma ['i', 'n', 'f', 'i', 'n', 'i', 't', 'y'] t r
    (by decide) hc
  have hinf := tag_no_case_comma ['i', 'n', 'f'] t r (by decide) hc
  cases erf : recognize_float t with
  | ok a =>
    cases a with
    | mk q v =>
      rw [erf] at hrf
      simp [nomFloat, hrf, erf]
  | error k =>
    rw [erf] at hrf
    cases k with
    | error =>
      cases e1 : tag_no_case ['n', 'a', 'n'] t with
      | some q =>
        rw [e1] at hnan
        simp [nomFloat, hrf, erf, hnan, e1]
      | none =>
        rw [e1] at hnan
        cases e2 : tag_no_case ['i', 'n', 'f', 'i', 'n', 'i', 't', 'y'] t with
        | some q =>
          rw [e2] at hinfy
          simp [nomFloat, hrf, erf, hnan, hinfy, e1, e2]
        | none =>
          rw [e2] at hinfy
          cases e3 : tag_no_case ['i', 'n', 'f'] t with
          | some q =>
            rw [e3] at hinf
            simp [nomFloat, hrf, erf, hnan, hinfy, hinf, e1, e2, e3]
          | none =>
            rw [e3] at hinf
            simp [nomFloat, hrf, erf, hnan, hinfy, hinf, e1, e2, e3]
    | failure => simp [nomFloat, hrf, erf]
    | incomplete => simp [nomFloat, hrf, erf]

/-- What the float parser leaves unconsumed is a suffix of its input. -/
theorem nomFloat_split (t q : List Char) (v : FVal)
    (h : nomFloat t = .ok (q, v)) : ∃ p, t = p ++ q := by
  unfold nomFloat at h
  cases erf : recognize_float t with
  | ok a =>
    cases a with
    | mk q2 v2 =>
      rw [erf] at h
      simp at h
      obtain ⟨hq, -⟩ := h
      obtain ⟨p, hp⟩ := recognize_float_split t q2 v2 erf
      exact ⟨p, by rw [hp, hq]⟩
  | error k =>
    rw [erf] at h
    cases k with
    | error =>
      cases e1 : tag_no_case ['n', 'a', 'n'] t with
      | some q2 =>
        rw [e1] at h
        simp at h
        obtain ⟨hq, -⟩ := h
        obtain ⟨p, hp⟩ := tag_no_case_split _ t q2 e1
        exact ⟨p, by rw [hp, hq]⟩
      | none =>
        rw [e1] at h
        cases e2 : tag_no_case ['i', 'n', 'f', 'i', 'n', 'i', 't', 'y'] t with
        | some q2 =>
          rw [e2] at h
          simp at h
          obtain ⟨hq, -⟩ := h
          obtain ⟨p, hp⟩ := tag_no_case_split _ t q2 e2
          exact ⟨p, by rw [hp, hq]⟩
        | none =>
          rw [e2] at h
          cases e3 : tag_no_case ['i', 'n', 'f'] t with
          | some q2 =>
            rw [e3] at h
            simp at h
            obtain ⟨hq, -⟩ := h
            obtain ⟨p, hp⟩ := tag_no_case_split _ t q2 e3
            exact ⟨p, by rw [hp, hq]⟩
          | none =>
            rw [e3] at h
            simp at h
    | failure => simp at h
    | incomplete => simp at h

/-- The float parser fails on an empty (comma-led) token. -/
theorem nomFloat_comma_head (rest : List Char) :
    nomFloat (',' :: rest) = .error .error := by
  have h1 : ¬ ((',').toLower = ('n').toLower) := by decide
  have h2 : ¬ ((',').toLower = ('i').toLower) := by decide
  simp [nomFloat, recognize_float, recFloatCore, spanDigits, tag_no_case,
        h1, h2]

/-- The full-token float conversion rejects the empty token. -/
theorem parse_float_num_nil : parse_float_num [] = none := rfl

/-- A token fully consumed by the nom float parser is also accepted by the
full-token `f32` conversion. -/
theorem nomFloat_full (t : List Char) (v : FVal)
    (h : nomFloat t = .ok ([], v)) : ∃ w, parse_float_num t = some w := by
  unfold nomFloat at h
  cases erf : recognize_float t with
  | ok a =>
    cases a with
    | mk q rv =>
      rw [erf] at h
      simp at h
      obtain ⟨hq, -⟩ := h
      subst hq
      cases t with
      | nil => simp [recognize_float] at erf
      | cons c t' =>
        by_cases hp : c = '+'
        · subst hp
          simp [recognize_float] at erf
          exact ⟨.finite rv, by simp [parse_float_num, float_no_sign, erf]⟩
        · by_cases hm : c = '-'
          · subst hm
            simp [recognize_float] at erf
            cases ec : recFloatCore t' with
            | error k => rw [ec] at erf; simp at erf
            | ok b =>
              cases b with
              | mk q2 v2 =>
                rw [ec] at erf
                simp at erf
                obtain ⟨hq2, -⟩ := erf
                subst hq2
                exact ⟨.finite (-v2),
                  by simp [parse_float_num, float_no_sign, ec, FVal.neg]⟩
          · simp only [recognize_float, if_neg hp, if_neg hm] at erf
            exact ⟨.finite rv,
              by simp [parse_float_num, hp, hm, float_no_sign, erf]⟩
  | error k =>
    rw [erf] at h
    cases k with
    | error =>
      cases e1 : tag_no_case ['n', 'a', 'n'] t with
      | some q =>
        rw [e1] at h
        simp at h
        obtain ⟨hq, -⟩ := h
        subst hq
        cases t with
        | nil => simp [tag_no_case] at e1
        | cons c t' =>
          have hcl : c.toLower = 'n' := by
            by_contra hx
            simp [tag_no_case, hx] at e1
          have hp : ¬ (c = '+') := by
            intro hx
            subst hx
            exact absurd hcl (by decide)
          have hm : ¬ (c = '-') := by
            intro hx
            subst hx
            exact absurd hcl (by decide)
          have hrfc : recFloatCore (c :: t') = .error .error := by
            have h' := erf
            simp only [recognize_float, if_neg hp, if_neg hm] at h'
            exact h'
          exact ⟨.nan,
            by simp [parse_float_num, hp, hm, float_no_sign, hrfc, e1]⟩
      | none =>
        rw [e1] at h
        cases e2 : tag_no_case ['i', 'n', 'f', 'i', 'n', 'i', 't', 'y'] t with
        | some q =>
          rw [e2] at h
          simp at h
          obtain ⟨hq, -⟩ := h
          subst hq
          cases t with
          | nil => simp [tag_no_case] at e2
          | cons c t' =>
            have hcl : c.toLower = 'i' := by
              by_contra hx
              simp [tag_no_case, hx] at e2
            have hp : ¬ (c = '+') := by
              intro hx
              subst hx
              exact absurd hcl (by decide)
            have hm : ¬ (c = '-') := by
              intro hx
              subst hx
              exact absurd hcl (by decide)
            have hrfc : recFloatCore (c :: t') = .error .error := by
              have h' := erf
              simp only [recognize_float, if_neg hp, if_neg hm] at h'
              exact h'
            exact ⟨.posInf,
              by simp [parse_float_num, hp, hm, float_no_sign, hrfc, e1, e2]⟩
        | none =>
          rw [e2] at h
          cases e3 : tag_no_case ['i', 'n', 'f'] t with
          | some q =>
            rw [e3] at h
            simp at h
            obtain ⟨hq, -⟩ := h
            subst hq
            cases t with
            | nil => simp [tag_no_case] at e3
            | cons c t' =>
              have hcl : c.toLower = 'i' := by
                by_contra hx
                simp [tag_no_case, hx] at e3
              have hp : ¬ (c = '+') := by
                intro hx
                subst hx
                exact absurd hcl (by decide)
              have hm : ¬ (c = '-') := by
                intro hx
                subst hx
                exact absurd hcl (by decide)
              have hrfc : recFloatCore (c :: t') = .error .error := by
                have h' := erf
                simp only [recognize_float, if_neg hp, if_neg hm] at h'
                exact h'
              exact ⟨.posInf,
                by simp [parse_float_num, hp, hm, float_no_sign, hrfc,
                         e1, e2, e3]⟩
          | none =>
            rw [e3] at h
            simp at h
    | failure => simp at h
    | incomplete => simp at h

/-- On a comma-free token that does not fully parse as an `f32`, the float
parser applied to the token plus a comma-led continuation either fails, or
succeeds leaving a remainder that still starts inside the token (so the
following separator consumption must fail). -/
theorem nomFloat_comma_cases (t r : List Char) (hc : ',' ∉ t)
    (hfull : parse_float_num t = none) :
    (∃ k, nomFloat (t ++ ',' :: r) = .error k) ∨
    (∃ d q' v, nomFloat (t ++ ',' :: r) = .ok (d :: (q' ++ ',' :: r), v) ∧
       d ≠ ',') := by
  have hlift := nomFloat_comma t r hc
  cases e : nomFloat t with
  | error k =>
    rw [e] at hlift
    exact Or.inl ⟨k, hlift⟩
  | ok a =>
    cases a with
    | mk q v =>
      rw [e] at hlift
      cases q with
      | nil =>
        exfalso
        obtain ⟨w, hw⟩ := nomFloat_full t v e
        rw [hw] at hfull
        exact Option.noConfusion hfull
      | cons d q' =>
        obtain ⟨p, hsplit⟩ := nomFloat_split t (d :: q') v e
        have hdc : d ≠ ',' := by
          intro hx
          apply hc
          rw [hsplit, hx]
          exact List.mem_append_right _ (by simp)
        refine Or.inr ⟨d, q', v, ?_, hdc⟩
        simpa using hlift

/-- The exact rational denoted by an unsigned decimal float token (the
magnitude of a sign-prefixed token), when the token is fully consumed by
the float grammar. -/
def floatMagnitude (t : List Char) : Option Rat :=
  match recFloatCore t with
  | .ok ([], v) => some v
  | _ => none

/-! ## Claims -/

/-- C1: decoding the APA data body `A,A,0.10,R,N,V,V,011,M,DEST,011,M` with
the expected APA tag succeeds and yields warning status true, cycle-lock
warning true, cross-track error magnitude 0.10, steer direction false
(right), cross-track units `N`, arrival false, passed false, bearing 11,
reference `M`, and waypoint id `DEST,011,M` (the trailing commas belong to
the waypoint id). -/
theorem c1_apa_example_decode :
    parse_apa ⟨("GP").data, .APA, ("A,A,0.10,R,N,V,V,011,M,DEST,011,M").data, 0x3E⟩ =
      .ok ⟨some true, some true, some (.finite (1/10)), some false, some 'N',
           some false, some false, some (.finite 11), some 'M',
           some (("DEST,011,M").data)⟩ := by
  simp [parse_apa, do_parse_apa, tr, one_of, char, opt, nomFloat,
        recognize_float, recFloatCore, spanDigits, parseExp, digitsToNat,
        pow10, scale10, is_not, spanNotIn, array_string, TEXT_PARAMETER_MAX_LEN]
  norm_num

/-- C2: every decoder invoked on a framed sentence whose tag differs from
its expected tag fails with the wrong-sentence-type error carrying the
expected and the actual tag, for every data body. -/
theorem c2_wrong_sentence_type (s : NmeaSentence) :
    (s.message_id ≠ .APA →
      parse_apa s = .error (.WrongSentenceHeader .APA s.message_id)) ∧
    (s.message_id ≠ .RPM →
      parse_rpm s = .error (.WrongSentenceHeader .RPM s.message_id)) ∧
    (s.message_id ≠ .RSA →
      parse_rsa s = .error (.WrongSentenceHeader .RSA s.message_id)) ∧
    (s.message_id ≠ .ZTG →
      parse_ztg s = .error (.WrongSentenceHeader .ZTG s.message_id)) := by
  refine ⟨fun h => ?_, fun h => ?_, fun h => ?_, fun h => ?_⟩ <;>
    simp [parse_apa, parse_rpm, parse_rsa, parse_ztg, h]

/-- Witness for C2: each decoder rejects a concrete mismatched tag with the
expected/actual pair, whatever the body says. -/
theorem c2_wrong_sentence_type_witness :
    parse_apa ⟨("GP").data, .ABK, ("A,A,0.10,R,N,V,V,011,M,DEST,011,M").data, 0x43⟩ =
      .error (.WrongSentenceHeader .APA .ABK) ∧
    parse_rpm ⟨("II").data, .APA, ("S,1,31,100,A").data, 0⟩ =
      .error (.WrongSentenceHeader .RPM .APA) ∧
    parse_rsa ⟨("II").data, .GGA, ("8.0,A,-2,A").data, 0⟩ =
      .error (.WrongSentenceHeader .RSA .GGA) ∧
    parse_ztg ⟨("GP").data, .RPM, ("145832.12,042359.17,WPT").data, 0⟩ =
      .error (.WrongSentenceHeader .ZTG .RPM) :=
  ⟨(c2_wrong_sentence_type _).1 (by decide),
   (c2_wrong_sentence_type _).2.1 (by decide),
   (c2_wrong_sentence_type _).2.2.1 (by decide),
   (c2_wrong_sentence_type _).2.2.2 (by decide)⟩

/-- C5: every optional field decodes an empty token (adjacent separators,
or an empty trailing segment) to `none`, with the rest of the sentence
decoding normally — never a failure, never a zero stand-in. -/
theorem c5_optional_absent :
    parse_apa ⟨("GP").data, .APA, ("A,A,,R,N,V,V,,M,").data, 0⟩ =
      .ok ⟨some true, some true, none, some false, some 'N', some false,
           some false, none, some 'M', none⟩ ∧
    parse_rpm ⟨("II").data, .RPM, (",,,,A").data, 0⟩ =
      .ok ⟨none, none, none, none, true⟩ ∧
    parse_rsa ⟨("II").data, .RSA, (",A,,V").data, 0⟩ =
      .ok ⟨none, true, none, false⟩ ∧
    parse_ztg ⟨("GP").data, .ZTG, (",,").data, 0⟩ =
      .ok ⟨none, none, none⟩ :=
  ⟨by decide, by decide, by decide, by decide⟩

set_option maxHeartbeats 3000000 in
/-- C6: every character outside the declared closed set of any of the seven
single-character enumerated APA fields makes `parse_apa` fail. -/
theorem c6_apa_enum_closed (c : Char) :
    (c ∉ (['A', 'V'] : List Char) →
      parse_apa ⟨[], .APA, c :: (",A,,R,N,V,V,,M,DEST").data, 0⟩ =
        .error .ParsingError) ∧
    (c ∉ (['A', 'V'] : List Char) →
      parse_apa ⟨[], .APA, ("A,").data ++ c :: (",,R,N,V,V,,M,DEST").data, 0⟩ =
        .error .ParsingError) ∧
    (c ∉ (['L', 'R'] : List Char) →
      parse_apa ⟨[], .APA, ("A,A,,").data ++ c :: (",N,V,V,,M,DEST").data, 0⟩ =
        .error .ParsingError) ∧
    (c ∉ (['N', 'K'] : List Char) →
      parse_apa ⟨[], .APA, ("A,A,,R,").data ++ c :: (",V,V,,M,DEST").data, 0⟩ =
        .error .ParsingError) ∧
    (c ∉ (['A', 'V'] : List Char) →
      parse_apa ⟨[], .APA, ("A,A,,R,N,").data ++ c :: (",V,,M,DEST").data, 0⟩ =
        .error .ParsingError) ∧
    (c ∉ (['A', 'V'] : List Char) →
      parse_apa ⟨[], .APA, ("A,A,,R,N,V,").data ++ c :: (",,M,DEST").data, 0⟩ =
        .error .ParsingError) ∧
    (c ∉ (['M', 'T'] : List Char) →
      parse_apa ⟨[], .APA, ("A,A,,R,N,V,V,,").data ++ c :: (",DEST").data, 0⟩ =
        .error .ParsingError) := by
  refine ⟨fun h => ?_, fun h => ?_, fun h => ?_, fun h => ?_, fun h => ?_,
          fun h => ?_, fun h => ?_⟩ <;>
  · simp only [List.mem_cons, List.not_mem_nil, or_false, not_or] at h
    simp [parse_apa, do_parse_apa, tr, one_of, char, opt, nomFloat_comma_head,
          h.1, h.2]

/-- Witness for C6: `G` in the warning and cycle positions, `X` as steer
direction, `C` as cross-track units, `G` in the arrival and passed
positions, and `X` as magnetic/true reference each make `parse_apa` fail. -/
theorem c6_apa_enum_closed_witness :
    parse_apa ⟨[], .APA, 'G' :: (",A,,R,N,V,V,,M,DEST").data, 0⟩ =
      .error .ParsingError ∧
    parse_apa ⟨[], .APA, ("A,").data ++ 'G' :: (",,R,N,V,V,,M,DEST").data, 0⟩ =
      .error .ParsingError ∧
    parse_apa ⟨[], .APA, ("A,A,,").data ++ 'X' :: (",N,V,V,,M,DEST").data, 0⟩ =
      .error .ParsingError ∧
    parse_apa ⟨[], .APA, ("A,A,,R,").data ++ 'C' :: (",V,V,,M,DEST").data, 0⟩ =
      .error .ParsingError ∧
    parse_apa ⟨[], .APA, ("A,A,,R,N,").data ++ 'G' :: (",V,,M,DEST").data, 0⟩ =
      .error .ParsingError ∧
    parse_apa ⟨[], .APA, ("A,A,,R,N,V,").data ++ 'G' :: (",,M,DEST").data, 0⟩ =
      .error .ParsingError ∧
    parse_apa ⟨[], .APA, ("A,A,,R,N,V,V,,").data ++ 'X' :: (",DEST").data, 0⟩ =
      .error .ParsingError :=
  ⟨(c6_apa_enum_closed 'G').1 (by decide),
   (c6_apa_enum_closed 'G').2.1 (by decide),
   (c6_apa_enum_closed 'X').2.2.1 (by decide),
   (c6_apa_enum_closed 'C').2.2.2.1 (by decide),
   (c6_apa_enum_closed 'G').2.2.2.2.1 (by decide),
   (c6_apa_enum_closed 'G').2.2.2.2.2.1 (by decide),
   (c6_apa_enum_closed 'X').2.2.2.2.2.2 (by decide)⟩

/-- C3 counterexample: the ZTG body `,,A,B` decodes successfully, but the
trailing text before the checksum marker is `A,B` while the decoded
waypoint id is only `A`: the content after the comma does not belong to the
waypoint id, contradicting the claim as stated. -/
theorem c3_ztg_waypoint_counterexample :
    parse_ztg ⟨("GP").data, .ZTG, (",,A,B").data, 0⟩ =
      .ok ⟨none, none, some ['A']⟩ ∧
    (['A'] : List Char) ≠ ("A,B").data :=
  ⟨by decide, by decide⟩

/-- C3 amended: the terminal ZTG waypoint-id field consumes the remaining
content only up to the first field separator or checksum marker; a decode
of a body whose tail is a separator-free token followed by such a delimiter
succeeds with exactly that token as the waypoint id, and whatever follows
the delimiter is ignored. -/
theorem c3_ztg_waypoint_amended (w rest : List Char) (hne : w ≠ [])
    (hlen : w.length ≤ 64) (hw : ∀ c ∈ w, c ≠ ',' ∧ c ≠ '*')
    (hr : rest = [] ∨ (∃ r', rest = ',' :: r') ∨ (∃ r', rest = '*' :: r')) :
    parse_ztg ⟨("GP").data, .ZTG, (",,").data ++ w ++ rest, 0⟩ =
      .ok ⟨none, none, some w⟩ := by
  have hw' : ∀ c ∈ w, c ∉ ([',', '*'] : List Char) := by
    intro d hd
    have h := hw d hd
    simp [h.1, h.2]
  have hspan : spanNotIn [',', '*'] (w ++ rest) = (w, rest) := by
    refine spanNotIn_exact _ _ _ hw' ?_
    rcases hr with rfl | ⟨r', rfl⟩ | ⟨r', rfl⟩
    · exact Or.inl rfl
    · exact Or.inr ⟨',', r', rfl, by simp⟩
    · exact Or.inr ⟨'*', r', rfl, by simp⟩
  cases w with
  | nil => exact absurd rfl hne
  | cons c w' =>
    rw [List.cons_append] at hspan
    have hlen' : ¬ (64 < w'.length + 1) := by
      simp only [List.length_cons] at hlen
      omega
    simp [parse_ztg, do_parse_ztg, tr, opt, parse_hms, parse_duration_hms,
          digit1, char, is_not, hspan, array_string, TEXT_PARAMETER_MAX_LEN,
          hlen']

/-- Witness for C3 amended: the ZTG waypoint token `WPT` followed by a
comma and further text decodes to waypoint id `WPT` with the tail ignored. -/
theorem c3_ztg_waypoint_amended_witness :
    parse_ztg ⟨("GP").data, .ZTG, (",,").data ++ ("WPT").data ++ (",IGNORED").data, 0⟩ =
      .ok ⟨none, none, some (("WPT").data)⟩ :=
  c3_ztg_waypoint_amended (("WPT").data) ((",IGNORED").data) (by decide) (by decide)
    (by decide) (Or.inr (Or.inl ⟨("IGNORED").data, rfl⟩))

/-- C4: a bounded-text token longer than the shared 64-character maximum
makes both the ZTG and the APA decode fail with the length-exceeded error
carrying the configured maximum and the observed token length. -/
theorem c4_text_length_exceeded (w : List Char) (hlen : 64 < w.length)
    (hw : ∀ c ∈ w, c ≠ ',' ∧ c ≠ '*') :
    parse_ztg ⟨("GP").data, .ZTG, (",,").data ++ w, 0⟩ =
      .error (.ParameterLength 64 w.length) ∧
    parse_apa ⟨("GP").data, .APA, ("A,A,0.10,R,N,V,V,011,M,").data ++ w, 0⟩ =
      .error (.ParameterLength 64 w.length) := by
  have hw' : ∀ c ∈ w, c ∉ ([',', '*'] : List Char) := by
    intro d hd
    have h := hw d hd
    simp [h.1, h.2]
  have hw'' : ∀ c ∈ w, c ∉ (['*'] : List Char) := by
    intro d hd
    simp [(hw d hd).2]
  have hspan : spanNotIn [',', '*'] w = (w, []) := spanNotIn_all _ _ hw'
  have hspan' : spanNotIn ['*'] w = (w, []) := spanNotIn_all _ _ hw''
  cases w with
  | nil => simp at hlen
  | cons c w' =>
    have hlen' : 64 < w'.length + 1 := by
      simp only [List.length_cons] at hlen
      omega
    constructor
    · simp [parse_ztg, do_parse_ztg, tr, opt, parse_hms, parse_duration_hms,
            digit1, char, is_not, hspan, array_string, TEXT_PARAMETER_MAX_LEN,
            hlen']
    · simp [parse_apa, do_parse_apa, tr, one_of, char, opt, nomFloat,
            recognize_float, recFloatCore, spanDigits, parseExp, digitsToNat,
            pow10, scale10, is_not, hspan', array_string,
            TEXT_PARAMETER_MAX_LEN, hlen']

/-- Witness for C4: a 72-character waypoint token is rejected by both
decoders with maximum 64 and observed length 72. -/
theorem c4_text_length_exceeded_witness :
    parse_ztg ⟨("GP").data, .ZTG, (",,").data ++ List.replicate 72 'A', 0⟩ =
      .error (.ParameterLength 64 72) ∧
    parse_apa ⟨("GP").data, .APA,
        ("A,A,0.10,R,N,V,V,011,M,").data ++ List.replicate 72 'A', 0⟩ =
      .error (.ParameterLength 64 72) := by
  have h := c4_text_length_exceeded (List.replicate 72 'A') (by decide) (by decide)
  simpa using h

set_option maxHeartbeats 4000000 in
/-- C7: a non-empty comma-free token that does not fully parse as the
declared numeric type makes the whole sentence decode fail, at every
optional numeric field: APA cross-track error and bearing, RPM speed and
propeller pitch (float), RSA starboard and port sensors (float), and the
RPM engine/shaft number (bounded integer). -/
theorem c7_malformed_numeric_rejected (t : List Char) (hne : t ≠ [])
    (hc : ',' ∉ t) :
    (parse_float_num t = none →
      parse_apa ⟨[], .APA, ("A,A,").data ++ t ++ (",R,N,V,V,,M,D").data, 0⟩ =
        .error .ParsingError ∧
      parse_apa ⟨[], .APA, ("A,A,,R,N,V,V,").data ++ t ++ (",M,D").data, 0⟩ =
        .error .ParsingError ∧
      parse_rpm ⟨[], .RPM, ("S,1,").data ++ t ++ (",100,A").data, 0⟩ =
        .error .ParsingError ∧
      parse_rpm ⟨[], .RPM, ("S,1,,").data ++ t ++ (",A").data, 0⟩ =
        .error .ParsingError ∧
      parse_rsa ⟨[], .RSA, t ++ (",A,5,V").data, 0⟩ =
        .error .ParsingError ∧
      parse_rsa ⟨[], .RSA, (",A,").data ++ t ++ (",V").data, 0⟩ =
        .error .ParsingError) ∧
    (parse_num_i8 t = none →
      parse_rpm ⟨[], .RPM, ("S,").data ++ t ++ (",31,100,A").data, 0⟩ =
        .error .ParsingError) := by
  cases t with
  | nil => exact absurd rfl hne
  | cons c t' =>
    have hc' : ',' ∉ t' := fun hm => hc (List.mem_cons_of_mem _ hm)
    have hcc : ¬ (c = ',') := fun hx => hc (by simp [hx])
    constructor
    · intro hfull
      refine ⟨?_, ?_, ?_, ?_, ?_, ?_⟩
      · rcases nomFloat_comma_cases (c :: t')
            ['R', ',', 'N', ',', 'V', ',', 'V', ',', ',', 'M', ',', 'D']
            hc hfull with ⟨k, hk⟩ | ⟨d, q', v, hok, hd⟩
        · rw [List.cons_append] at hk
          cases k <;>
            simp [parse_apa, do_parse_apa, tr, one_of, char, opt, hk, hcc]
        · rw [List.cons_append] at hok
          simp [parse_apa, do_parse_apa, tr, one_of, char, opt, hok, hd]
      · rcases nomFloat_comma_cases (c :: t') ['M', ',', 'D']
            hc hfull with ⟨k, hk⟩ | ⟨d, q', v, hok, hd⟩
        · rw [List.cons_append] at hk
          cases k <;>
            simp [parse_apa, do_parse_apa, tr, one_of, char, opt,
                  nomFloat_comma_head, hk, hcc]
        · rw [List.cons_append] at hok
          simp [parse_apa, do_parse_apa, tr, one_of, char, opt,
                nomFloat_comma_head, hok, hd]
      · have hspan := spanNotIn_comma_token t' ['1', '0', '0', ',', 'A'] hc'
        simp [parse_rpm, do_parse_rpm, opt, one_of_streaming, char, map_res,
              take_until_comma, spanNotIn, hspan, parse_num_i8, spanDigits,
              digitsToNat, hfull, hcc, List.cons_append]
      · have hspan := spanNotIn_comma_token t' ['A'] hc'
        simp [parse_rpm, do_parse_rpm, opt, one_of_streaming, char, map_res,
              take_until_comma, spanNotIn, hspan, parse_num_i8, spanDigits,
              digitsToNat, parse_float_num_nil, hfull, hcc, List.cons_append]
      · have hspan := spanNotIn_comma_token t' ['A', ',', '5', ',', 'V'] hc'
        simp [parse_rsa, do_parse_rsa, opt, char, map_res, take_until_comma,
              spanNotIn, hspan, parse_valid_status, hfull, hcc,
              List.cons_append]
      · have hspan := spanNotIn_comma_token t' ['V'] hc'
        simp [parse_rsa, do_parse_rsa, opt, char, map_res, take_until_comma,
              spanNotIn, hspan, parse_valid_status, parse_float_num_nil,
              hfull, hcc, List.cons_append]
    · intro hnum
      have hspan := spanNotIn_comma_token t'
        ['3', '1', ',', '1', '0', '0', ',', 'A'] hc'
      simp [parse_rpm, do_parse_rpm, opt, one_of_streaming, char, map_res,
            take_until_comma, spanNotIn, hspan, hnum, hcc, List.cons_append]

/-- Witness for C7: the token `1.5x` (a valid numeric token followed by
garbage) is rejected by both numeric conversions, and every numeric field
position turns it into a whole-sentence decode failure. -/
theorem c7_malformed_numeric_rejected_witness :
    parse_float_num (("1.5x").data) = none ∧
    parse_num_i8 (("1.5x").data) = none ∧
    parse_apa ⟨[], .APA, ("A,A,").data ++ ("1.5x").data ++ (",R,N,V,V,,M,D").data, 0⟩ =
      .error .ParsingError ∧
    parse_apa ⟨[], .APA, ("A,A,,R,N,V,V,").data ++ ("1.5x").data ++ (",M,D").data, 0⟩ =
      .error .ParsingError ∧
    parse_rpm ⟨[], .RPM, ("S,1,").data ++ ("1.5x").data ++ (",100,A").data, 0⟩ =
      .error .ParsingError ∧
    parse_rpm ⟨[], .RPM, ("S,1,,").data ++ ("1.5x").data ++ (",A").data, 0⟩ =
      .error .ParsingError ∧
    parse_rsa ⟨[], .RSA, ("1.5x").data ++ (",A,5,V").data, 0⟩ =
      .error .ParsingError ∧
    parse_rsa ⟨[], .RSA, (",A,").data ++ ("1.5x").data ++ (",V").data, 0⟩ =
      .error .ParsingError ∧
    parse_rpm ⟨[], .RPM, ("S,").data ++ ("1.5x").data ++ (",31,100,A").data, 0⟩ =
      .error .ParsingError := by
  obtain ⟨h1, h2⟩ :=
    c7_malformed_numeric_rejected (("1.5x").data) (by decide) (by decide)
  have hf : parse_float_num (("1.5x").data) = none := by decide
  have hn : parse_num_i8 (("1.5x").data) = none := by decide
  obtain ⟨a1, a2, a3, a4, a5, a6⟩ := h1 hf
  exact ⟨hf, hn, a1, a2, a3, a4, a5, a6, h2 hn⟩

/-- C8: the RPM decoder accepts a negative literal in the speed and
propeller-pitch fields and preserves the sign: a `-`-prefixed token whose
unsigned part denotes the positive magnitude `m` decodes to the negative
value `-m` in the corresponding field, the rest of the record decoding
normally. -/
theorem c8_rpm_negative_sign_preserved (t : List Char) (m : Rat)
    (hc : ',' ∉ t) (hm : floatMagnitude t = some m) (hpos : 0 < m) :
    (parse_rpm ⟨("II").data, .RPM,
        ("S,1,").data ++ ('-' :: t) ++ (",100,A").data, 0⟩ =
       .ok ⟨some .Shaft, some 1, some (.finite (-m)), some (.finite 100), true⟩) ∧
    (parse_rpm ⟨("II").data, .RPM,
        ("S,1,31,").data ++ ('-' :: t) ++ (",A").data, 0⟩ =
       .ok ⟨some .Shaft, some 1, some (.finite 31), some (.finite (-m)), true⟩) ∧
    -m < 0 := by
  have e : recFloatCore t = .ok ([], m) := by
    unfold floatMagnitude at hm
    split at hm
    · rename_i heq
      injection hm with hm
      subst hm
      exact heq
    · exact Option.noConfusion hm
  have hspan1 := spanNotIn_comma_token t ['1', '0', '0', ',', 'A'] hc
  have hspan2 := spanNotIn_comma_token t ['A'] hc
  have hfn : parse_float_num ('-' :: t) = some (.finite (-m)) := by
    simp [parse_float_num, float_no_sign, FVal.neg, e]
  have h100 : parse_float_num ['1', '0', '0'] = some (.finite 100) := by
    simp [parse_float_num, float_no_sign, recFloatCore, spanDigits, parseExp,
          digitsToNat, pow10, scale10]
  have h31 : parse_float_num ['3', '1'] = some (.finite 31) := by
    simp [parse_float_num, float_no_sign, recFloatCore, spanDigits, parseExp,
          digitsToNat, pow10, scale10]
  refine ⟨?_, ?_, by linarith⟩
  · simp [parse_rpm, do_parse_rpm, opt, one_of_streaming, char, map_res,
          take_until_comma, spanNotIn, hspan1, parse_num_i8, spanDigits,
          digitsToNat, hfn, h100, parse_valid_status, List.cons_append]
  · simp [parse_rpm, do_parse_rpm, opt, one_of_streaming, char, map_res,
          take_until_comma, spanNotIn, hspan2, parse_num_i8, spanDigits,
          digitsToNat, hfn, h31, parse_valid_status, List.cons_append]

/-- Witness for C8: the speed token `-4.5` decodes to `-9/2` and the pitch
token `-4.5` likewise, with the sign preserved. -/
theorem c8_rpm_negative_sign_preserved_witness :
    (parse_rpm ⟨("II").data, .RPM,
        ("S,1,").data ++ ('-' :: ("4.5").data) ++ (",100,A").data, 0⟩ =
       .ok ⟨some .Shaft, some 1, some (.finite (-(9/2 : Rat))),
            some (.finite 100), true⟩) ∧
    (parse_rpm ⟨("II").data, .RPM,
        ("S,1,31,").data ++ ('-' :: ("4.5").data) ++ (",A").data, 0⟩ =
       .ok ⟨some .Shaft, some 1, some (.finite 31),
            some (.finite (-(9/2 : Rat))), true⟩) ∧
    -(9/2 : Rat) < 0 :=
  c8_rpm_negative_sign_preserved (("4.5").data) (9/2) (by decide)
    (by simp [floatMagnitude, recFloatCore, spanDigits, parseExp,
              digitsToNat, pow10, scale10]
        norm_num)
    (by norm_num)

/-- C9: the RPM and RSA decoders ignore any text left in the data body
after the final validity-status character: appending an arbitrary suffix to
a well-formed body yields the same record, successfully. -/
theorem c9_trailing_content_ignored (s : List Char) :
    parse_rpm ⟨("II").data, .RPM, ("S,1,31,100,A").data ++ s, 0⟩ =
      .ok ⟨some .Shaft, some 1, some (.finite 31), some (.finite 100), true⟩ ∧
    parse_rsa ⟨("II").data, .RSA, ("8.0,A,-2,A").data ++ s, 0⟩ =
      .ok ⟨some (.finite 8), true, some (.finite (-2)), true⟩ := by
  constructor <;>
    simp [parse_rpm, parse_rsa, do_parse_rpm, do_parse_rsa, opt,
          one_of_streaming, char, map_res, take_until_comma, spanNotIn,
          parse_num_i8, parse_float_num, float_no_sign, FVal.neg, spanDigits,
          recFloatCore, parseExp, digitsToNat, pow10, scale10,
          parse_valid_status]

/-- C10: every `ApaData` record successfully returned by `parse_apa` has
all seven enumerated/status fields populated (`isSome`); despite their
`Option` types, `none` is impossible for them in a successful decode. -/
theorem c10_apa_enum_fields_populated (s : NmeaSentence) (r : ApaData)
    (h : parse_apa s = .ok r) :
    r.status_warning.isSome ∧ r.status_cycle_warning.isSome ∧
    r.direction_steer.isSome ∧ r.cross_track_units.isSome ∧
    r.status_arrived.isSome ∧ r.status_passed.isSome ∧
    r.magnetic_true.isSome := by
  unfold parse_apa at h
  split at h
  · exact absurd h (by simp)
  · unfold do_parse_apa at h
    simp only [Bind.bind, Except.bind, pure, Except.pure] at h
    repeat' split at h
    all_goals (try exact Except.noConfusion h)
    all_goals (injection h with h; subst h; simp)

/-- Witness for C10: a concrete successful APA decode whose seven
enumerated/status fields are all populated. -/
theorem c10_apa_enum_fields_populated_witness :
    (ApaData.mk (some true) (some true) none (some false) (some 'N')
        (some false) (some false) none (some 'M')
        (some (("DEST").data))).status_warning.isSome ∧
    (ApaData.mk (some true) (some true) none (some false) (some 'N')
        (some false) (some false) none (some 'M')
        (some (("DEST").data))).status_cycle_warning.isSome ∧
    (ApaData.mk (some true) (some true) none (some false) (some 'N')
        (some false) (some false) none (some 'M')
        (some (("DEST").data))).direction_steer.isSome ∧
    (ApaData.mk (some true) (some true) none (some false) (some 'N')
        (some false) (some false) none (some 'M')
        (some (("DEST").data))).cross_track_units.isSome ∧
    (ApaData.mk (some true) (some true) none (some false) (some 'N')
        (some false) (some false) none (some 'M')
        (some (("DEST").data))).status_arrived.isSome ∧
    (ApaData.mk (some true) (some true) none (some false) (some 'N')
        (some false) (some false) none (some 'M')
        (some (("DEST").data))).status_passed.isSome ∧
    (ApaData.mk (some true) (some true) none (some false) (some 'N')
        (some false) (some false) none (some 'M')
        (some (("DEST").data))).magnetic_true.isSome :=
  c10_apa_enum_fields_populated
    ⟨("GP").data, .APA, ("A,A,,R,N,V,V,,M,DEST").data, 0⟩ _ (by decide)

end Nmea
